import Mathlib

/-!
Shallow embedding of the currency fixed-point-money module (src/source.ts /
src/index.js).  JavaScript numbers are modelled as exact rationals (ℚ);
`Math.round` is floor of the value plus one half, `Number.prototype.toFixed`
rounds the absolute value to the nearest scaled integer with ties picked
upward, mirroring the ECMAScript definitions.  The parser's three regex
`.replace` calls are embedded as list transformations whose effect on the
relevant alphabet matches the regexes in the source, and the `Number()`
coercion is embedded for the post-cleanup alphabet (digits, minus, dot).
-/

/-- Embedding of the `DefaultSettings`/`Settings` interfaces.  The `decimal`
separator is modelled as a single character (the source default is `'.'`).
`increment = 0` models an absent (`undefined`) increment, matching the
`settings.increment || (1 / precision)` defaulting in the constructor, and
`groups` is the boolean choice between the standard and vedic grouping
regexes assigned by the constructor from `useVedic`. -/
structure Settings where
  symbol : String
  separator : String
  decimal : Char
  formatWithSymbol : Bool
  errorOnInvalid : Bool
  precision : Nat
  pattern : String
  negativePattern : String
  increment : ℚ
  useVedic : Bool
  groups : Bool
deriving DecidableEq, Repr

/-- The `defaults` object of the source (fields absent there are the JS
`undefined`, modelled as `0` / `false`). -/
def defaults : Settings :=
  { symbol := "$", separator := ",", decimal := '.', formatWithSymbol := false,
    errorOnInvalid := false, precision := 2, pattern := "!#",
    negativePattern := "-!#", increment := 0, useVedic := false, groups := false }

/-- `pow` of the source: `p => Math.pow(10, p)`. -/
def pow10 (p : Nat) : ℚ := 10 ^ p

/-- `round` of the source: `v => Math.round(v)`; ECMAScript `Math.round`
returns the floor of the argument plus one half. -/
def jsRound (q : ℚ) : ℚ := ((⌊q + 1 / 2⌋ : ℤ) : ℚ)

/-- `Number(v.toFixed(4))`: ECMAScript `toFixed` formats `abs v` with the
integer nearest to `abs v * 10^4` (ties toward the larger integer, which for
nonnegative reals is floor of the value plus one half) and re-applies the
sign; `Number` of that exact four-decimal string is the rational itself. -/
def tf4 (q : ℚ) : ℚ :=
  if q < 0 then -(((⌊(-q) * 10000 + 1 / 2⌋ : ℤ) : ℚ) / 10000)
  else ((⌊q * 10000 + 1 / 2⌋ : ℤ) : ℚ) / 10000

/-- The tail of the source `parse`: `v = Number(v.toFixed(4)); return
useRounding ? round(v) : v;`. -/
def finishParse (v : ℚ) (useRounding : Bool) : ℚ :=
  if useRounding then jsRound (tf4 v) else tf4 v

/-- `settings.increment = settings.increment || (1 / precision)` and
`settings.groups = settings.useVedic ? vedicRegex : groupRegex` performed by
the constructor on the merged settings object. -/
def effSettings (s : Settings) : Settings :=
  { s with
    increment := if s.increment = 0 then 1 / pow10 s.precision else s.increment,
    groups := s.useVedic }

/-- The state of a constructed `currency` instance: `intValue`, `value`,
`_settings`, `_precision`. -/
structure Money where
  intValue : ℚ
  value : ℚ
  _settings : Settings
  _precision : ℚ
deriving DecidableEq, Repr

/-- The input type of the constructor and of `parse`:
`number | string | currency`, plus `other` for any other runtime value
(the final `else` branch of `parse`). -/
inductive Value where
  | num (q : ℚ)
  | str (s : String)
  | money (m : Money)
  | other
deriving DecidableEq, Repr

/-- Embedding of `value.replace(/\((.*)\)/, '-$1')`: the (single, greedy)
match runs from the first `'('` to the last `')'` after it; the match is
replaced by `'-'` followed by the captured text.  If no such pair exists the
string is unchanged. -/
def parenStrip (l : List Char) : List Char :=
  let rest := l.dropWhile (fun c => c != '(')
  let revBody := rest.tail.reverse
  let mid := revBody.dropWhile (fun c => c != ')')
  if rest = [] ∨ mid = [] then l
  else
    l.takeWhile (fun c => c != '(') ++
      '-' :: mid.tail.reverse ++ (revBody.takeWhile (fun c => c != ')')).reverse

/-- Embedding of `value.replace(new RegExp('[^-\\d' + decimal + ']', 'g'), '')`:
every character that is not a minus sign, a digit, or the decimal separator
is removed. -/
def cleanFilter (dec : Char) (l : List Char) : List Char :=
  l.filter (fun c => c == '-' || c.isDigit || c == dec)

/-- Embedding of `value.replace(new RegExp('\\' + decimal, 'g'), '.')`:
every decimal-separator character becomes `'.'`. -/
def decCanon (dec : Char) (l : List Char) : List Char :=
  l.map (fun c => if c == dec then '.' else c)

/-- `c.toNat - '0'.toNat`. -/
def digitVal (c : Char) : Nat := c.toNat - 48

/-- Reading a list of decimal digit characters most-significant first. -/
def digitsToNat (l : List Char) : Nat :=
  l.foldl (fun a c => 10 * a + digitVal c) 0

/-- Sign application for the `Number()` embedding. -/
def jsSign (b : Bool) (q : ℚ) : ℚ := if b then -q else q

/-- Embedding of the ECMAScript `Number(string)` coercion, restricted to the
alphabet that survives the parser's cleanup (digits, `'-'`, `'.'`): the empty
string is `0`; otherwise an optional single leading minus followed by
`digits`, `digits.digits`, `digits.` or `.digits` yields the exact rational,
and anything else (stray minus signs, extra dots, a bare `"-"`, `"."`) is
`NaN`, modelled as `none`. -/
def jsNumber (l : List Char) : Option ℚ :=
  if l = [] then some 0
  else
    let neg := decide (l.head? = some '-')
    let r := if neg then l.tail else l
    let ip := r.takeWhile (fun c => c != '.')
    match r.dropWhile (fun c => c != '.') with
    | [] =>
      if ip ≠ [] ∧ ip.all Char.isDigit then some (jsSign neg (digitsToNat ip))
      else none
    | _ :: fp =>
      if (ip ≠ [] ∨ fp ≠ []) ∧ ip.all Char.isDigit ∧ fp.all Char.isDigit then
        some (jsSign neg ((digitsToNat ip : ℚ) + (digitsToNat fp : ℚ) / 10 ^ fp.length))
      else none

/-- The string branch of `parse`: cleanup, `Number(...) * precision`, and
`v = v || 0` (a `NaN` result resolves to `0`). -/
def strVal (s : String) (opts : Settings) : ℚ :=
  match jsNumber (decCanon opts.decimal (cleanFilter opts.decimal (parenStrip s.toList))) with
  | none => 0
  | some q => q * pow10 opts.precision

/-- Embedding of `parse(value, opts, useRounding = true)`.  Note the number
branch is `v = value` in the source: numeric input is NOT multiplied by
`10^precision`. -/
def parse (value : Value) (opts : Settings) (useRounding : Bool := true) : Except String ℚ :=
  match value with
  | .money m => .ok (finishParse (m.value * pow10 opts.precision) useRounding)
  | .num q => .ok (finishParse q useRounding)
  | .str s => .ok (finishParse (strVal s opts) useRounding)
  | .other =>
    if opts.errorOnInvalid then .error "Invalid Input"
    else .ok (finishParse 0 useRounding)

/-- The `currency` constructor: parse, store `intValue` and
`value = intValue / 10^precision`, and store the settings with the
increment/groups defaulting applied. -/
def mkMoney (value : Value) (opts : Settings) : Except String Money :=
  (parse value opts true).map fun v =>
    { intValue := v, value := v / pow10 opts.precision,
      _settings := effSettings opts, _precision := pow10 opts.precision }

/-- The constructor specialised to a numeric argument (the number branch of
`parse` cannot throw), used by the arithmetic methods, which always hand the
constructor a number. -/
def moneyNum (q : ℚ) (opts : Settings) : Money :=
  { intValue := finishParse q true,
    value := finishParse q true / pow10 opts.precision,
    _settings := effSettings opts, _precision := pow10 opts.precision }

/-- `add`: `currency((intValue += parse(number, _settings)) / _precision, _settings)`. -/
def Money.add (m : Money) (n : Value) : Except String Money :=
  (parse n m._settings true).map fun p =>
    moneyNum ((m.intValue + p) / m._precision) m._settings

/-- `subtract`: `currency((intValue -= parse(number, _settings)) / _precision, _settings)`. -/
def Money.subtract (m : Money) (n : Value) : Except String Money :=
  (parse n m._settings true).map fun p =>
    moneyNum ((m.intValue - p) / m._precision) m._settings

/-- `multiply`: `currency((intValue *= number) / pow(_settings.precision), _settings)`;
the factor is a raw number and is not parsed. -/
def Money.multiply (m : Money) (x : ℚ) : Money :=
  moneyNum ((m.intValue * x) / pow10 m._settings.precision) m._settings

/-- `divide`: `currency(intValue /= parse(number, _settings, false), _settings)`. -/
def Money.divide (m : Money) (n : Value) : Except String Money :=
  (parse n m._settings false).map fun p =>
    moneyNum (m.intValue / p) m._settings

/-- `add` with a numeric argument, where `parse` cannot throw (used inside
`distribute` for `item.add(1 / _precision)`). -/
def addN (m : Money) (q : ℚ) : Money :=
  moneyNum ((m.intValue + finishParse q true) / m._precision) m._settings

/-- `subtract` with a numeric argument, where `parse` cannot throw. -/
def subN (m : Money) (q : ℚ) : Money :=
  moneyNum ((m.intValue - finishParse q true) / m._precision) m._settings

/-- `split = Math[intValue >= 0 ? 'floor' : 'ceil'](intValue / count)`. -/
def splitOf (m : Money) (count : ℤ) : ℚ :=
  if 0 ≤ m.intValue then ((⌊m.intValue / (count : ℚ)⌋ : ℤ) : ℚ)
  else ((⌈m.intValue / (count : ℚ)⌉ : ℤ) : ℚ)

/-- `pennies = Math.abs(intValue - (split * count))`. -/
def penniesOf (m : Money) (count : ℤ) : ℚ :=
  |m.intValue - splitOf m count * (count : ℚ)|

/-- The `for (; count !== 0; count--)` loop of `distribute`, indexed by fuel:
`none` means the given fuel was not enough to reach `count = 0` (for negative
counts no fuel is, i.e. the loop never terminates).  Each iteration builds
`currency(split / _precision, _settings)`, adds or subtracts one smallest
unit while `pennies-- > 0`, and pushes the item. -/
def distLoop (m : Money) (split : ℚ) (fuel : Nat) (count : ℤ) (pennies : ℚ)
    (acc : List Money) : Option (List Money) :=
  if count = 0 then some acc
  else
    match fuel with
    | 0 => none
    | f + 1 =>
      let item := moneyNum (split / m._precision) m._settings
      let item :=
        if 0 < pennies then
          (if 0 ≤ m.intValue then addN item (1 / m._precision)
           else subN item (1 / m._precision))
        else item
      distLoop m split f (count - 1) (pennies - 1) (acc ++ [item])

/-- `distribute(count)` returns `res`: the loop, started from the source's
`split` and `pennies`, reaches `count = 0` with some amount of fuel and
returns `res`. -/
def distributes (m : Money) (count : ℤ) (res : List Money) : Prop :=
  ∃ fuel, distLoop m (splitOf m count) fuel count (penniesOf m count) [] = some res

/-- Running `distribute(count)` with fuel `count.toNat` (exactly the number
of iterations the loop performs for a nonnegative count). -/
def distributeRun (m : Money) (count : ℤ) : Option (List Money) :=
  distLoop m (splitOf m count) count.toNat count (penniesOf m count) []

/-- Decimal digit characters. -/
def digitCh : Nat → Char
  | 0 => '0' | 1 => '1' | 2 => '2' | 3 => '3' | 4 => '4'
  | 5 => '5' | 6 => '6' | 7 => '7' | 8 => '8' | _ => '9'

/-- Fuel-indexed decimal rendering of a natural number, most significant
digit first (the integer-to-string conversion used by `toFixed`). -/
def natStrGo (fuel n : Nat) : List Char :=
  match fuel with
  | 0 => []
  | f + 1 =>
    if n < 10 then [digitCh n]
    else natStrGo f (n / 10) ++ [digitCh (n % 10)]

/-- Decimal rendering of a natural number. -/
def natStr (n : Nat) : List Char := natStrGo (n + 1) n

/-- Left-padding with `'0'` to `f` characters. -/
def padZeros (f : Nat) (l : List Char) : List Char :=
  List.replicate (f - l.length) '0' ++ l

/-- ECMAScript `Number.prototype.toFixed(f)`: a leading minus for negative
input, then the integer nearest to `abs q * 10^f` (ties upward) rendered with
`f` digits after the dot (no dot when `f = 0`). -/
def toFixed (f : Nat) (q : ℚ) : List Char :=
  let n := (⌊|q| * 10 ^ f + 1 / 2⌋).toNat
  let sign : List Char := if q < 0 then ['-'] else []
  if f = 0 then sign ++ natStr n
  else sign ++ natStr (n / 10 ^ f) ++ '.' :: padZeros f (natStr (n % 10 ^ f))

/-- `rounding` of the source: `(value, increment) => round(value / increment) * increment`. -/
def rounding (value increment : ℚ) : ℚ := jsRound (value / increment) * increment

/-- `toString()`:
`rounding(intValue / _precision, _settings.increment).toFixed(_settings.precision)`. -/
def Money.toStr (m : Money) : String :=
  String.mk (toFixed m._settings.precision (rounding (m.intValue / m._precision) m._settings.increment))

/-- Effect of `dollars.replace(groupRegex, '$1' + separator)` on an all-digit
string: the separator is inserted after every digit followed by a positive
multiple of three digits. -/
def stdGroup (sep : List Char) : List Char → List Char
  | [] => []
  | c :: cs =>
    c :: (if cs.length % 3 = 0 ∧ cs.length ≠ 0 then sep ++ stdGroup sep cs
          else stdGroup sep cs)

/-- Effect of `dollars.replace(vedicRegex, '$1' + separator)` on an all-digit
string: the separator is inserted after every digit followed by an odd number
(at least three) of digits. -/
def vedicGroup (sep : List Char) : List Char → List Char
  | [] => []
  | c :: cs =>
    c :: (if cs.length % 2 = 1 ∧ 3 ≤ cs.length then sep ++ vedicGroup sep cs
          else vedicGroup sep cs)

/-- `String.prototype.replace` with a single-character search string: the
first occurrence of `t` is replaced by `r`. -/
def replaceFirst (t : Char) (r : List Char) : List Char → List Char
  | [] => []
  | c :: cs => if c = t then r ++ cs else c :: replaceFirst t r cs

/-- `format(useSymbol)`: stringify, strip a leading minus, split at the
decimal point, group the whole part, and substitute into the pattern
(`useSymbol` is the optional argument; `none` models passing no argument, in
which case `formatWithSymbol` is used). -/
def Money.format (m : Money) (useSymbol : Option Bool) : String :=
  let s := m._settings
  let str := (Money.toStr m).toList
  let stripped := if str.head? = some '-' then str.tail else str
  let dollars := stripped.takeWhile (fun c => c != '.')
  let cents : Option (List Char) :=
    match stripped.dropWhile (fun c => c != '.') with
    | [] => none
    | _ :: t => some (t.takeWhile (fun c => c != '.'))
  let useSym := useSymbol.getD s.formatWithSymbol
  let grouped :=
    if s.groups then vedicGroup s.separator.toList dollars
    else stdGroup s.separator.toList dollars
  let body := grouped ++
    (match cents with
     | none => []
     | some c => if c = [] then [] else s.decimal :: c)
  let pat := if 0 ≤ m.value then s.pattern else s.negativePattern
  String.mk (replaceFirst '#' body
    (replaceFirst '!' (if useSym then s.symbol.toList else []) pat.toList))

instance {ε α : Type} [DecidableEq ε] [DecidableEq α] : DecidableEq (Except ε α) :=
  fun a b =>
    match a, b with
    | .error e, .error f =>
      decidable_of_iff (e = f) ⟨fun h => by rw [h], fun h => Except.error.inj h⟩
    | .ok x, .ok y =>
      decidable_of_iff (x = y) ⟨fun h => by rw [h], fun h => Except.ok.inj h⟩
    | .error _, .ok _ => isFalse (fun h => Except.noConfusion h)
    | .ok _, .error _ => isFalse (fun h => Except.noConfusion h)

/-! ### Basic numeric lemmas -/

theorem floor_intCast_add_half (z : ℤ) : ⌊(z : ℚ) + 1 / 2⌋ = z := by
  rw [Int.floor_int_add]
  norm_num

theorem tf4_int (k : ℤ) : tf4 ((k : ℚ)) = k := by
  unfold tf4
  by_cases h : (k : ℚ) < 0
  · rw [if_pos h]
    have : (-(k : ℚ)) * 10000 = ((-k * 10000 : ℤ) : ℚ) := by push_cast; ring
    rw [this, floor_intCast_add_half]
    push_cast
    ring
  · rw [if_neg h]
    have : (k : ℚ) * 10000 = ((k * 10000 : ℤ) : ℚ) := by push_cast; ring
    rw [this, floor_intCast_add_half]
    push_cast
    ring

theorem jsRound_int (k : ℤ) : jsRound ((k : ℚ)) = k := by
  unfold jsRound
  rw [floor_intCast_add_half]

theorem finishParse_int (k : ℤ) (r : Bool) : finishParse ((k : ℚ)) r = k := by
  cases r <;> simp [finishParse, tf4_int, jsRound_int]

theorem tf4_zero : tf4 0 = 0 := by
  have := tf4_int 0
  simpa using this

theorem finishParse_zero (r : Bool) : finishParse 0 r = 0 := by
  have := finishParse_int 0 r
  simpa using this

theorem finishParse_isInt (q : ℚ) : ∃ k : ℤ, finishParse q true = (k : ℚ) :=
  ⟨⌊tf4 q + 1 / 2⌋, rfl⟩

theorem parse_ok_int (v : Value) (o : Settings) (q : ℚ)
    (h : parse v o true = .ok q) : ∃ k : ℤ, q = (k : ℚ) := by
  cases v with
  | num x =>
    obtain ⟨k, hk⟩ := finishParse_isInt x
    exact ⟨k, by simp [parse] at h; rw [← h, hk]⟩
  | str s =>
    obtain ⟨k, hk⟩ := finishParse_isInt (strVal s o)
    exact ⟨k, by simp [parse] at h; rw [← h, hk]⟩
  | money m =>
    obtain ⟨k, hk⟩ := finishParse_isInt (m.value * pow10 o.precision)
    exact ⟨k, by simp [parse] at h; rw [← h, hk]⟩
  | other =>
    by_cases he : o.errorOnInvalid
    · simp [parse, he] at h
    · obtain ⟨k, hk⟩ := finishParse_isInt 0
      exact ⟨k, by simp [parse, he] at h; rw [← h, hk]⟩

/-! ### Distribution loop lemmas -/

theorem distLoop_zero_count (m : Money) (s : ℚ) (fuel : Nat) (p : ℚ)
    (acc : List Money) : distLoop m s fuel 0 p acc = some acc := by
  cases fuel <;> simp [distLoop]

theorem distLoop_term (f : Nat) : ∀ (m : Money) (s p : ℚ) (acc : List Money),
    ∃ l, distLoop m s f (f : ℤ) p acc = some l := by
  induction f with
  | zero => exact fun m s p acc => ⟨acc, by simp [distLoop]⟩
  | succ f ih =>
    intro m s p acc
    have hne : ((f + 1 : Nat) : ℤ) ≠ 0 := by exact_mod_cast Nat.succ_ne_zero f
    have hcast : ((f + 1 : Nat) : ℤ) - 1 = (f : ℤ) := by push_cast; ring
    rw [distLoop, if_neg hne]
    simp only [hcast]
    exact ih m s (p - 1) _

theorem distLoop_neg (f : Nat) : ∀ (m : Money) (s : ℚ) (c : ℤ), c < 0 →
    ∀ (p : ℚ) (acc : List Money), distLoop m s f c p acc = none := by
  induction f with
  | zero =>
    intro m s c hc p acc
    rw [distLoop, if_neg (by omega)]
  | succ f ih =>
    intro m s c hc p acc
    rw [distLoop, if_neg (by omega)]
    exact ih m s (c - 1) (by omega) (p - 1) _

/-! ### Digit-string lemmas -/

theorem digitCh_spec : ∀ n : Nat, n < 10 →
    digitVal (digitCh n) = n ∧ (digitCh n).isDigit = true := by decide

theorem digit_not_special (c : Char) (h : c.isDigit = true) :
    c ≠ '.' ∧ c ≠ '(' ∧ c ≠ '-' ∧ c ≠ ')' := by
  refine ⟨?_, ?_, ?_, ?_⟩ <;> intro e <;> subst e <;> exact absurd h (by decide)

theorem digitsToNat_cons (c : Char) (l : List Char) :
    digitsToNat (c :: l) = l.foldl (fun a d => 10 * a + digitVal d) (digitVal c) := by
  simp [digitsToNat]

theorem digitsToNat_foldl (l : List Char) : ∀ a : Nat,
    l.foldl (fun x c => 10 * x + digitVal c) a = a * 10 ^ l.length + digitsToNat l := by
  induction l with
  | nil => intro a; simp [digitsToNat]
  | cons c cs ih =>
    intro a
    rw [List.foldl_cons, ih, digitsToNat_cons, ih (digitVal c)]
    simp [List.length_cons]
    ring

theorem digitsToNat_append_digit (l : List Char) (c : Char) :
    digitsToNat (l ++ [c]) = 10 * digitsToNat l + digitVal c := by
  unfold digitsToNat
  rw [List.foldl_append]
  simp

theorem digitsToNat_replicate_zero (j : Nat) :
    digitsToNat (List.replicate j '0') = 0 := by
  induction j with
  | zero => simp [digitsToNat]
  | succ j ih =>
    rw [List.replicate_succ, digitsToNat_cons]
    have : digitVal '0' = 0 := by decide
    rw [this]
    simpa [digitsToNat] using ih

theorem digitsToNat_pad (f : Nat) (l : List Char) :
    digitsToNat (padZeros f l) = digitsToNat l := by
  unfold padZeros digitsToNat
  rw [List.foldl_append]
  have h0 : List.foldl (fun a c => 10 * a + digitVal c) 0 (List.replicate (f - l.length) '0') = 0 :=
    digitsToNat_replicate_zero (f - l.length)
  rw [h0]

theorem padZeros_length (f : Nat) (l : List Char) (h : l.length ≤ f) :
    (padZeros f l).length = f := by
  simp [padZeros]
  omega

theorem padZeros_digits (f : Nat) (l : List Char) (h : ∀ c ∈ l, c.isDigit = true) :
    ∀ c ∈ padZeros f l, c.isDigit = true := by
  intro c hc
  rcases List.mem_append.mp hc with h1 | h2
  · have := List.eq_of_mem_replicate h1
    subst this
    decide
  · exact h c h2

theorem natStrGo_spec : ∀ (fuel : Nat), ∀ n : Nat, n < fuel →
    digitsToNat (natStrGo fuel n) = n ∧
    (∀ c ∈ natStrGo fuel n, c.isDigit = true) ∧ natStrGo fuel n ≠ [] := by
  intro fuel
  induction fuel with
  | zero => intro n h; omega
  | succ f ih =>
    intro n h
    by_cases h10 : n < 10
    · refine ⟨?_, ?_, ?_⟩ <;> simp [natStrGo, h10]
      · rw [digitsToNat_cons]
        simpa [digitsToNat] using (digitCh_spec n h10).1
      · exact (digitCh_spec n h10).2
    · have hpos : 0 < n := by omega
      have hlt : n / 10 < f := by
        have := Nat.div_lt_self hpos (by norm_num : 1 < 10)
        omega
      obtain ⟨e1, e2, e3⟩ := ih (n / 10) hlt
      have hmod : n % 10 < 10 := Nat.mod_lt n (by norm_num)
      refine ⟨?_, ?_, ?_⟩ <;> simp [natStrGo, h10]
      · rw [digitsToNat_append_digit, e1, (digitCh_spec _ hmod).1]
        omega
      · intro c hc
        rcases hc with hc1 | rfl
        · exact e2 c hc1
        · exact (digitCh_spec _ hmod).2

theorem natStr_spec (n : Nat) :
    digitsToNat (natStr n) = n ∧
    (∀ c ∈ natStr n, c.isDigit = true) ∧ natStr n ≠ [] :=
  natStrGo_spec (n + 1) n (Nat.lt_succ_self n)

theorem natStrGo_small (f m : Nat) (h : m < 10) : natStrGo (f + 1) m = [digitCh m] := by
  simp [natStrGo, h]

theorem natStr_len_le_two (n : Nat) (h : n < 100) : (natStr n).length ≤ 2 := by
  by_cases h10 : n < 10
  · simp [natStr, natStrGo_small n n h10]
  · have e : natStr n = natStrGo n (n / 10) ++ [digitCh (n % 10)] := by
      simp [natStr, natStrGo, h10]
    obtain ⟨k, rfl⟩ : ∃ k, n = k + 1 := ⟨n - 1, by omega⟩
    rw [e, natStrGo_small k ((k + 1) / 10) (by omega)]
    simp

/-! ### Cleanup and Number-coercion lemmas -/

theorem takeWhile_middle (p : Char → Bool) (x : Char) (r : List Char)
    (hx : p x = false) : ∀ (l : List Char), (∀ c ∈ l, p c = true) →
    (l ++ x :: r).takeWhile p = l ∧ (l ++ x :: r).dropWhile p = x :: r := by
  intro l
  induction l with
  | nil => intro _; simp [List.takeWhile_cons, List.dropWhile_cons, hx]
  | cons c cs ih =>
    intro h
    have hc := h c (List.mem_cons_self c cs)
    have ihr := ih (fun d hd => h d (List.mem_cons_of_mem c hd))
    simp [List.takeWhile_cons, List.dropWhile_cons, hc, ihr.1, ihr.2]

theorem dropWhile_all (p : Char → Bool) (l : List Char)
    (h : ∀ c ∈ l, p c = true) : l.dropWhile p = [] :=
  List.dropWhile_eq_nil_iff.mpr h

theorem clean3_id (l : List Char)
    (h : ∀ c ∈ l, c = '-' ∨ c.isDigit = true ∨ c = '.') :
    decCanon '.' (cleanFilter '.' (parenStrip l)) = l := by
  have hparen : parenStrip l = l := by
    have : l.dropWhile (fun c => c != '(') = [] := by
      apply dropWhile_all
      intro c hc
      rcases h c hc with rfl | hd | rfl
      · decide
      · simp [bne_iff_ne, (digit_not_special c hd).2.1]
      · decide
    simp [parenStrip, this]
  rw [hparen]
  have hfilter : cleanFilter '.' l = l := by
    apply List.filter_eq_self.mpr
    intro c hc
    rcases h c hc with rfl | hd | rfl
    · decide
    · simp [hd]
    · decide
  rw [hfilter]
  have hmap : ∀ c ∈ l, (if c == '.' then '.' else c) = c := by
    intro c _
    by_cases e : c = '.' <;> simp [e]
  unfold decCanon
  rw [List.map_congr_left hmap]
  simp


theorem jsNumber_decimal_pos (ip fp : List Char) (h1 : ip ≠ [])
    (h2 : ∀ c ∈ ip, c.isDigit = true) (h3 : ∀ c ∈ fp, c.isDigit = true) :
    jsNumber (ip ++ '.' :: fp) =
      some ((digitsToNat ip : ℚ) + (digitsToNat fp : ℚ) / 10 ^ fp.length) := by
  obtain ⟨c0, ip', rfl⟩ : ∃ c0 ip', ip = c0 :: ip' := by
    cases ip with
    | nil => exact absurd rfl h1
    | cons a b => exact ⟨a, b, rfl⟩
  have hdot : ((('.' : Char)) != '.') = false := by decide
  have hallp : ∀ c ∈ c0 :: ip', (fun c => c != '.') c = true := by
    intro c hc
    simp [bne_iff_ne, (digit_not_special c (h2 c hc)).1]
  have hmid := takeWhile_middle (fun c => c != '.') '.' fp hdot (c0 :: ip') hallp
  simp only [List.cons_append] at hmid
  have hc0 : c0 ≠ '-' := (digit_not_special c0 (h2 c0 (List.mem_cons_self c0 ip'))).2.2.1
  have hipall : (c0 :: ip').all Char.isDigit = true := List.all_eq_true.mpr h2
  have hfpall : fp.all Char.isDigit = true := List.all_eq_true.mpr h3
  have hd : decide (c0 = '-') = false := by simp [hc0]
  simp only [jsNumber, List.cons_append, List.head?_cons, Option.some.injEq, hd,
    Bool.false_eq_true, if_false, hmid.1, hmid.2]
  simp [hipall, hfpall, jsSign]

theorem jsNumber_decimal_neg (ip fp : List Char) (h1 : ip ≠ [])
    (h2 : ∀ c ∈ ip, c.isDigit = true) (h3 : ∀ c ∈ fp, c.isDigit = true) :
    jsNumber ('-' :: (ip ++ '.' :: fp)) =
      some (-((digitsToNat ip : ℚ) + (digitsToNat fp : ℚ) / 10 ^ fp.length)) := by
  have hdot : ((('.' : Char)) != '.') = false := by decide
  have hallp : ∀ c ∈ ip, (fun c => c != '.') c = true := by
    intro c hc
    simp [bne_iff_ne, (digit_not_special c (h2 c hc)).1]
  have hmid := takeWhile_middle (fun c => c != '.') '.' fp hdot ip hallp
  have hipall : ip.all Char.isDigit = true := List.all_eq_true.mpr h2
  have hfpall : fp.all Char.isDigit = true := List.all_eq_true.mpr h3
  simp only [jsNumber, List.head?_cons, Option.some.injEq, decide_True, if_true,
    List.tail_cons, List.cons_ne_nil, hmid.1, hmid.2]
  simp [h1, hipall, hfpall, jsSign]

theorem toFixed_two_int (k : ℤ) :
    toFixed 2 ((k : ℚ) / 100) =
      (if k < 0 then ['-'] else []) ++
        natStr (k.natAbs / 100) ++ '.' :: padZeros 2 (natStr (k.natAbs % 100)) := by
  have habs : |(k : ℚ) / 100| = (k.natAbs : ℚ) / 100 := by
    rw [abs_div]
    norm_num
    rw [Int.cast_natAbs]
    push_cast
    ring
  have hfloor : ⌊|(k : ℚ) / 100| * 10 ^ 2 + 1 / 2⌋ = (k.natAbs : ℤ) := by
    rw [habs]
    have e : (k.natAbs : ℚ) / 100 * 10 ^ 2 = (((k.natAbs : ℤ)) : ℚ) := by
      have ee : (((k.natAbs : ℤ)) : ℚ) = (k.natAbs : ℚ) := Int.cast_natCast k.natAbs
      rw [ee]
      ring
    rw [e, floor_intCast_add_half]
  have hsign : ((k : ℚ) / 100 < 0) ↔ k < 0 := by
    rw [div_lt_iff₀ (by norm_num : (0 : ℚ) < 100)]
    simp
  simp only [toFixed, hfloor, Int.toNat_natCast, hsign]
  norm_num

theorem cast_div_add_mod (n : Nat) :
    (((n / 100 : ℕ) : ℚ) + ((n % 100 : ℕ) : ℚ) / 10 ^ 2) * 100 = (n : ℚ) := by
  rw [show ((10 : ℚ) ^ 2) = 100 by norm_num]
  have h : n / 100 * 100 + n % 100 = n := by omega
  field_simp
  exact_mod_cast h

theorem toFixed_chars (k : ℤ) :
    ∀ c ∈ toFixed 2 ((k : ℚ) / 100), c = '-' ∨ c.isDigit = true ∨ c = '.' := by
  rw [toFixed_two_int]
  intro c hc
  rcases List.mem_append.mp hc with hc1 | hc2
  · rcases List.mem_append.mp hc1 with hs | hn
    · left
      by_cases hk : k < 0
      · simp [hk] at hs
        exact hs
      · simp [hk] at hs
    · right; left
      exact (natStr_spec _).2.1 c hn
  · rcases List.mem_cons.mp hc2 with rfl | hmem
    · right; right; rfl
    · right; left
      exact padZeros_digits _ _ (natStr_spec _).2.1 c hmem

theorem strVal_eq (s : String) (o : Settings) (q : ℚ)
    (h : jsNumber (decCanon o.decimal (cleanFilter o.decimal (parenStrip s.toList))) = some q) :
    strVal s o = q * pow10 o.precision := by
  unfold strVal
  rw [h]

theorem strVal_toFixed (k : ℤ) :
    strVal (String.mk (toFixed 2 ((k : ℚ) / 100))) defaults = (k : ℚ) := by
  have hip := natStr_spec (k.natAbs / 100)
  have hfp := natStr_spec (k.natAbs % 100)
  have hfpd : ∀ c ∈ padZeros 2 (natStr (k.natAbs % 100)), c.isDigit = true :=
    padZeros_digits _ _ hfp.2.1
  have hlen : (padZeros 2 (natStr (k.natAbs % 100))).length = 2 :=
    padZeros_length _ _ (natStr_len_le_two _ (Nat.mod_lt _ (by norm_num)))
  have hlist : (String.mk (toFixed 2 ((k : ℚ) / 100))).toList = toFixed 2 ((k : ℚ) / 100) := rfl
  have hdec : defaults.decimal = '.' := rfl
  have hprec : pow10 defaults.precision = 100 := by norm_num [pow10, defaults]
  have hclean := clean3_id _ (toFixed_chars k)
  by_cases hk : k < 0
  · have e : ((if k < 0 then ['-'] else []) ++ natStr (k.natAbs / 100) ++
        '.' :: padZeros 2 (natStr (k.natAbs % 100)) : List Char) =
        '-' :: (natStr (k.natAbs / 100) ++ '.' :: padZeros 2 (natStr (k.natAbs % 100))) := by
      rw [if_pos hk]
      simp
    have hnum := jsNumber_decimal_neg _ _ hip.2.2 hip.2.1 hfpd
    rw [strVal_eq _ _ _ (by rw [hlist, hdec, hclean, toFixed_two_int k, e, hnum])]
    rw [digitsToNat_pad, hip.1, hfp.1, hlen, hprec]
    rw [neg_mul, cast_div_add_mod]
    rw [Int.cast_natAbs, abs_of_neg hk]
    push_cast
    ring
  · have e : ((if k < 0 then ['-'] else []) ++ natStr (k.natAbs / 100) ++
        '.' :: padZeros 2 (natStr (k.natAbs % 100)) : List Char) =
        natStr (k.natAbs / 100) ++ '.' :: padZeros 2 (natStr (k.natAbs % 100)) := by
      rw [if_neg hk]
      simp
    have hnum := jsNumber_decimal_pos _ _ hip.2.2 hip.2.1 hfpd
    rw [strVal_eq _ _ _ (by rw [hlist, hdec, hclean, toFixed_two_int k, e, hnum])]
    rw [digitsToNat_pad, hip.1, hfp.1, hlen, hprec]
    rw [cast_div_add_mod]
    rw [Int.cast_natAbs, abs_of_nonneg (not_lt.mp hk)]

theorem parse_toFixed_back (k : ℤ) :
    parse (.str (String.mk (toFixed 2 ((k : ℚ) / 100)))) defaults true = .ok ((k : ℚ)) := by
  simp [parse, strVal_toFixed, finishParse_int]

theorem mkMoney_ok (x : Value) (o : Settings) (m : Money) (h : mkMoney x o = .ok m) :
    ∃ q, parse x o true = .ok q ∧
      m = { intValue := q, value := q / pow10 o.precision,
            _settings := effSettings o, _precision := pow10 o.precision } := by
  unfold mkMoney at h
  cases hp : parse x o true with
  | error e => rw [hp] at h; simp [Except.map] at h
  | ok q =>
    rw [hp] at h
    simp [Except.map] at h
    exact ⟨q, rfl, h.symm⟩

theorem eff_defaults_increment : (effSettings defaults).increment = 1 / 100 := by
  norm_num [effSettings, defaults, pow10]

theorem eff_defaults_precision : (effSettings defaults).precision = 2 := rfl

theorem rounding_int_cent (k : ℤ) : rounding ((k : ℚ) / 100) (1 / 100) = (k : ℚ) / 100 := by
  unfold rounding
  have e : ((k : ℚ) / 100) / (1 / 100) = (k : ℚ) := by field_simp
  rw [e, jsRound_int]
  ring

/-- Claim C7: round-trip through the canonical string form is
value-preserving: for any input `x` (number, string, money value, or other)
construction with default settings, `toString`, and re-construction yield
the same `value`. -/
theorem spec_C7 (x : Value) (m : Money) (h : mkMoney x defaults = .ok m) :
    ∃ m2, mkMoney (.str (Money.toStr m)) defaults = .ok m2 ∧ m2.value = m.value := by
  obtain ⟨q, hq, hm⟩ := mkMoney_ok x defaults m h
  obtain ⟨k, rfl⟩ := parse_ok_int x defaults q hq
  have hstr : Money.toStr m = String.mk (toFixed 2 ((k : ℚ) / 100)) := by
    rw [hm]
    unfold Money.toStr
    simp only [eff_defaults_precision, eff_defaults_increment]
    rw [show pow10 defaults.precision = 100 from by norm_num [pow10, defaults]]
    rw [rounding_int_cent]
  rw [hstr]
  refine ⟨{ intValue := (k : ℚ), value := (k : ℚ) / pow10 defaults.precision,
            _settings := effSettings defaults, _precision := pow10 defaults.precision }, ?_, ?_⟩
  · unfold mkMoney
    rw [parse_toFixed_back k]
    rfl
  · rw [hm]

/-! ### Claim theorems -/

/-- Claim C1 (evaluation at the failing input): the constructor does not
scale numeric input by `10^precision`: with default settings (precision 2),
`Money(1).intValue` is `1`, not `1 * 10^2 = 100`; the derived `value` is
`intValue / 10^precision`, hence `0.01` rather than `1`. -/
theorem spec_C1 :
    (mkMoney (.num 1) defaults).map Money.intValue = .ok 1 ∧
    (1 : ℚ) ≠ 1 * pow10 defaults.precision ∧
    (mkMoney (.num 1) defaults).map Money.value = .ok (1 / pow10 defaults.precision) :=
  ⟨by with_unfolding_all rfl, by with_unfolding_all decide, by with_unfolding_all rfl⟩

/-- Claim C2 (evaluation at the failing input): for the MoneyValue produced
by `Money(10)` (which has `intValue = 10`), `distribute(3)` returns three
entries whose `intValue`s sum to `0`, not to the original `10`: the loop
rebuilds each part with `currency(split / precision)`, and the unscaled
number branch of `parse` collapses `0.03` to `0`. -/
theorem spec_C2 :
    (moneyNum 10 defaults).intValue = 10 ∧
    (distributeRun (moneyNum 10 defaults) 3).map
      (fun l => (l.map Money.intValue).sum) = some 0 ∧
    ((0 : ℚ) ≠ 10) :=
  ⟨by with_unfolding_all rfl, by with_unfolding_all rfl, by with_unfolding_all decide⟩

/-- Claim C3 (evaluation at the failing inputs): `Money(1).add(Money(2)).value`
evaluates to `0`, not `3`, and `Money(0.1).add(0.2).value` evaluates to `0`,
not `0.3`: the unscaled number branch of `parse` rounds the small re-divided
reals down to `0`. -/
theorem spec_C3 :
    ((mkMoney (.num 1) defaults).bind fun a =>
      (mkMoney (.num 2) defaults).bind fun b =>
        (a.add (.money b)).map Money.value) = .ok 0 ∧
    ((0 : ℚ) ≠ 3) ∧
    ((mkMoney (.num 0.1) defaults).bind fun a =>
        (a.add (.num 0.2)).map Money.value) = .ok 0 ∧
    ((0 : ℚ) ≠ 0.3) :=
  ⟨by with_unfolding_all rfl, by with_unfolding_all decide,
   by with_unfolding_all rfl, by with_unfolding_all decide⟩

/-- Claim C4: `parse` fails (with the single error kind `"Invalid Input"`)
exactly when `errorOnInvalid` is configured true and the input is neither a
number, a string, nor a MoneyValue; and every string whose cleanup is
non-numeric (`Number()` yields NaN) resolves to `0` without raising. -/
theorem spec_C4 :
    (∀ (v : Value) (o : Settings) (r : Bool),
        parse v o r = .error "Invalid Input" ↔
          o.errorOnInvalid = true ∧ v = .other) ∧
    (∀ (s : String) (o : Settings) (r : Bool),
        jsNumber (decCanon o.decimal (cleanFilter o.decimal (parenStrip s.toList))) = none →
          parse (.str s) o r = .ok 0) := by
  constructor
  · intro v o r
    cases v with
    | num q => simp [parse]
    | str s => simp [parse]
    | money m => simp [parse]
    | other =>
      by_cases he : o.errorOnInvalid
      · simp [parse, he]
      · simp [parse, he]
  · intro s o r h
    have hz : strVal s o = 0 := by
      unfold strVal
      rw [h]
    simp [parse, hz, finishParse_zero]

/-- Witness for C4: the string `"-"` cleans up to a non-numeric string and
parses to `0`; an `other`-typed input with `errorOnInvalid` set raises. -/
theorem spec_C4_witness :
    parse (.str "-") defaults true = .ok 0 ∧
    parse .other { defaults with errorOnInvalid := true } true = .error "Invalid Input" :=
  ⟨spec_C4.2 "-" defaults true (by with_unfolding_all rfl),
   (spec_C4.1 .other { defaults with errorOnInvalid := true } true).mpr ⟨rfl, rfl⟩⟩

/-- Counterexample for C5: with default settings, `Money(1234.5).format()`
does not return `"1,234.5"` (it returns `"12.35"`, since numeric input is not
scaled by `10^precision`). -/
theorem spec_C5_counterexample :
    ¬ ((mkMoney (.num 1234.5) defaults).map (fun m => m.format none) = .ok "1,234.5") := by
  with_unfolding_all decide

/-- Claim C5 (amended): with default settings `Money(1234.5).format()`
returns `"12.35"` (no symbol, since `formatWithSymbol` defaults to false),
and with `formatWithSymbol` set to true it returns `"$12.35"`; the
fractional part (preceded by the decimal separator) is appended whenever the
rendered cents substring is nonempty — with precision 2 it always is, even
when zero, e.g. `Money("3").format()` is `"3.00"`. -/
theorem spec_C5 :
    (mkMoney (.num 1234.5) defaults).map (fun m => m.format none) = .ok "12.35" ∧
    (mkMoney (.num 1234.5) { defaults with formatWithSymbol := true }).map
      (fun m => m.format none) = .ok "$12.35" ∧
    (mkMoney (.str "3") defaults).map (fun m => m.format none) = .ok "3.00" :=
  ⟨by with_unfolding_all rfl, by with_unfolding_all rfl, by with_unfolding_all rfl⟩

/-- Claim C6: string parsing strips parenthetical-negative notation, removes
characters other than digits, minus, and the decimal separator, canonicalizes
the separator, converts with `Number()` and scales by `10^precision`; in
particular `Money("$1,234.56").value` is `1234.56` and `Money("(1.99)").value`
is `-1.99`; moreover the string branch of `parse` never raises. -/
theorem spec_C6 :
    (mkMoney (.str "$1,234.56") defaults).map Money.value = .ok (1234.56 : ℚ) ∧
    (mkMoney (.str "(1.99)") defaults).map Money.value = .ok (-1.99 : ℚ) ∧
    (∀ (s : String) (o : Settings) (r : Bool),
        parse (.str s) o r = .ok (finishParse (strVal s o) r)) :=
  ⟨by with_unfolding_all rfl, by with_unfolding_all rfl, fun s o r => rfl⟩

/-- Claim C8: each arithmetic operation builds a new MoneyValue and hands the
constructor the operand's settings; re-merging an already-effective settings
object is the identity, so the result carries settings equal to the
operand's (the operand itself, a pure value here, is untouched). -/
theorem spec_C8 (m : Money) (q : ℚ) (h : m._settings = effSettings m._settings) :
    (m.add (.num q)).map Money._settings = .ok m._settings ∧
    (m.subtract (.num q)).map Money._settings = .ok m._settings ∧
    (m.multiply q)._settings = m._settings ∧
    (m.divide (.num q)).map Money._settings = .ok m._settings := by
  refine ⟨?_, ?_, ?_, ?_⟩ <;>
    simp [Money.add, Money.subtract, Money.multiply, Money.divide, parse, moneyNum,
      Except.map] <;>
    exact h.symm

/-- Witness for C8 at `Money(1)` and argument `2`. -/
theorem spec_C8_witness :
    ((moneyNum 1 defaults).add (.num 2)).map Money._settings =
      .ok (moneyNum 1 defaults)._settings ∧
    ((moneyNum 1 defaults).subtract (.num 2)).map Money._settings =
      .ok (moneyNum 1 defaults)._settings ∧
    ((moneyNum 1 defaults).multiply 2)._settings = (moneyNum 1 defaults)._settings ∧
    ((moneyNum 1 defaults).divide (.num 2)).map Money._settings =
      .ok (moneyNum 1 defaults)._settings :=
  spec_C8 (moneyNum 1 defaults) 2 (by with_unfolding_all rfl)

/-- Claim C9: `distribute(0)` performs zero loop iterations and returns the
empty sequence, raising no error, for every MoneyValue and any amount of
fuel. -/
theorem spec_C9 (m : Money) (fuel : Nat) :
    distLoop m (splitOf m 0) fuel 0 (penniesOf m 0) [] = some [] ∧
    distributes m 0 [] :=
  ⟨distLoop_zero_count m _ fuel _ [], ⟨0, distLoop_zero_count m _ 0 _ []⟩⟩

/-- Claim C10: the `for (; count !== 0; count--)` loop of `distribute`
terminates (in exactly `count` iterations) for every integer `count ≥ 0`,
and for every negative integer `count` it never terminates: no amount of
fuel reaches `count = 0`, so no sequence is ever returned. -/
theorem spec_C10 :
    (∀ (m : Money) (c : ℤ), 0 ≤ c →
        ∃ l, distLoop m (splitOf m c) c.toNat c (penniesOf m c) [] = some l) ∧
    (∀ (m : Money) (c : ℤ), c < 0 → ∀ (fuel : Nat) (p : ℚ) (acc : List Money),
        distLoop m (splitOf m c) fuel c p acc = none) ∧
    (∀ (m : Money) (c : ℤ) (l : List Money), c < 0 → ¬ distributes m c l) := by
  refine ⟨?_, ?_, ?_⟩
  · intro m c hc
    have h := distLoop_term c.toNat m (splitOf m c) (penniesOf m c) []
    rwa [Int.toNat_of_nonneg hc] at h
  · intro m c hc fuel p acc
    exact distLoop_neg fuel m (splitOf m c) c hc p acc
  · intro m c l hc hd
    obtain ⟨fuel, hf⟩ := hd
    rw [distLoop_neg fuel m (splitOf m c) c hc _ _] at hf
    exact Option.noConfusion hf

/-- Witness for C10 at `Money(1)` with counts `2` and `-1`. -/
theorem spec_C10_witness :
    (∃ l, distLoop (moneyNum 1 defaults) (splitOf (moneyNum 1 defaults) 2)
        (Int.toNat 2) 2 (penniesOf (moneyNum 1 defaults) 2) [] = some l) ∧
    distLoop (moneyNum 1 defaults) (splitOf (moneyNum 1 defaults) (-1)) 5 (-1) 0 [] = none :=
  ⟨spec_C10.1 (moneyNum 1 defaults) 2 (by decide),
   spec_C10.2.1 (moneyNum 1 defaults) (-1) (by decide) 5 0 []⟩

/-- Witness for C7 at `Money(1)`. -/
theorem spec_C7_witness :
    ∃ m2, mkMoney (.str (Money.toStr (moneyNum 1 defaults))) defaults = .ok m2 ∧
      m2.value = (moneyNum 1 defaults).value :=
  spec_C7 (.num 1) (moneyNum 1 defaults) rfl
